import Mathlib

/-
Verification of the metabolomics identifier-mapping pipeline
(src/Python/metabolomics-parser/metabolomics-parser.py and src/Python/utilities.py).

The Python code is shallowly embedded: pandas dataframes become lists of
structures (one structure field per column), cell values become String or
Rat (floats are modelled as exact rationals), and the regex and string
manipulations of the source are implemented as executable functions over
List Char.  Python string operations used by the source are modelled as
follows:
  - str.replace(p, "") for the single-character patterns of the source is
    character removal (pandas Series.str.replace is modelled with literal,
    regex=False semantics);
  - str.strip() removes the Python whitespace characters at both ends;
  - str.lower() lowercases ASCII letters;
  - str.split(sep) / str.rsplit(sep) for a single-character separator are
    modelled by takeWhile / dropWhile scans over the character list;
  - str(int(x)) is modelled by an explicit decimal rendering of integers.
All definitions are structurally recursive so that concrete instances
evaluate by kernel reduction.
-/

/- ### Generic list helpers -/

/-- Flattened map over a list (the embedding of building a dataframe by
appending one block of rows per input element). -/
def listFlat (f : α → List β) : List α → List β
  | [] => []
  | a :: t => f a ++ listFlat f t

/-- Keep-first deduplication by a key function, with an accumulator of the
keys already seen (the embedding of pandas drop_duplicates(keep="first")). -/
def dedupKeyAux (key : α → β) [DecidableEq β] (seen : List β) : List α → List α
  | [] => []
  | a :: t =>
    if key a ∈ seen then dedupKeyAux key seen t
    else a :: dedupKeyAux key (key a :: seen) t

/-- drop_duplicates(subset=key, keep="first"). -/
def dedupKey (key : α → β) [DecidableEq β] (l : List α) : List α :=
  dedupKeyAux key [] l

/- ### Character-list string primitives -/

/-- Tests whether the first list is a prefix of the second. -/
def beginsWith : List Char → List Char → Bool
  | [], _ => true
  | _ :: _, [] => false
  | p :: ps, c :: cs => p = c && beginsWith ps cs

/-- Tests whether the first list occurs as a contiguous substring of the
second (the embedding of the Python `in` operator on strings). -/
def containsSub (needle : List Char) : List Char → Bool
  | [] => beginsWith needle []
  | c :: t => beginsWith needle (c :: t) || containsSub needle t

/-- Python whitespace, as stripped by str.strip(). -/
def isPySpace (c : Char) : Bool :=
  c = ' ' || c = '\t' || c = '\n' || c = '\r' || c = '\x0b' || c = '\x0c'

/-- str.strip(): drop whitespace from both ends. -/
def stripL (l : List Char) : List Char :=
  ((l.dropWhile isPySpace).reverse.dropWhile isPySpace).reverse

/-- str.replace(p, "") for a single-character pattern p: remove every
occurrence of the character. -/
def removeChar (p : Char) (l : List Char) : List Char :=
  l.filter (fun c => c ≠ p)

/-- ASCII lowercasing of one character (str.lower()). -/
def toLowerCh (c : Char) : Char :=
  if 'A' ≤ c ∧ c ≤ 'Z' then Char.ofNat (c.toNat + 32) else c

/-- str.lower() over a character list. -/
def lowerL (l : List Char) : List Char := l.map toLowerCh

/- ### mapMetabolicModel: regex extraction of identifiers (claim C1)

The source compiles three fixed patterns
    .*http://identifiers.org/chebi/CHEBI:(\d+)
    .*http://identifiers.org/hmdb/HMDB(\d+)
    .*http://identifiers.org/kegg.compound/C(\d+)
and applies re.match (a guard) followed by re.findall to the serialized
rdf:li element.  For a single-line serialization, the leading greedy .*
makes both agree: a match exists iff the literal URI text followed by at
least one digit occurs somewhere in the string, and the (single) group
returned by findall is the maximal digit run after the LAST such
occurrence.  findLastAfter implements exactly that semantics.  (The
unescaped dots of the patterns, which as regexes also match arbitrary
characters, are modelled as literal dots; the claims concern well-formed
identifiers.org URIs, which the literal text covers.) -/

/-- Digits captured by the group of `.*PAT(\d+)` on a one-line string:
the maximal digit run after the last occurrence of PAT that is followed
by at least one digit; none when the pattern does not match. -/
def findLastAfter (pat : List Char) : List Char → Option (List Char)
  | [] => none
  | c :: rest =>
    match findLastAfter pat rest with
    | some r => some r
    | none =>
      if beginsWith pat (c :: rest) then
        let ds := List.takeWhile Char.isDigit (List.drop pat.length (c :: rest))
        if ds.isEmpty then none else some ds
      else none

/-- True when the list does not start with a digit (so a digit run ending
at its head cannot extend into it). -/
def headNotDigit : List Char → Bool
  | [] => true
  | c :: _ => !c.isDigit

/-- The fixed ChEBI pattern of mapMetabolicModel. -/
def chebiPatS : String := "http://identifiers.org/chebi/CHEBI:"

/-- The fixed HMDB pattern of mapMetabolicModel. -/
def hmdbPatS : String := "http://identifiers.org/hmdb/HMDB"

/-- The fixed KEGG pattern of mapMetabolicModel. -/
def keggPatS : String := "http://identifiers.org/kegg.compound/C"

def chebiPat : List Char := chebiPatS.toList

def hmdbPat : List Char := hmdbPatS.toList

def keggPat : List Char := keggPatS.toList

/-- One species element of the model XML: its name and metaid attributes
and the serialized contents of its rdf:li descendants. -/
structure SpeciesElem where
  name : String
  metaid : String
  items : List (List Char)
deriving DecidableEq

/-- One row of the modelMap dataframe, after the final astype(str) and
str.replace("'", "") pass of mapMetabolicModel: every field is a string
and a missing identifier is the string nan (str of a numpy NaN wrapped in
a singleton list, with the brackets and quotes stripped). -/
structure ModelRow where
  metabolite : String
  bigg : String
  chebi : String
  hmdb : String
  kegg : String
deriving DecidableEq

/-- CHEBI column entry for one rdf:li serialization: the bare digit
string, or nan. -/
def chebiField (c : List Char) : String :=
  match findLastAfter chebiPat c with
  | some d => String.mk d
  | none => "nan"

/-- HMDB column entry: the digits re-prefixed with HMDB, or nan. -/
def hmdbField (c : List Char) : String :=
  match findLastAfter hmdbPat c with
  | some d => "HMDB" ++ String.mk d
  | none => "nan"

/-- KEGG column entry: the digits re-prefixed with C, or nan. -/
def keggField (c : List Char) : String :=
  match findLastAfter keggPat c with
  | some d => "C" ++ String.mk d
  | none => "nan"

/-- The row appended for one rdf:li element of one species.  Each of the
three identifier fields is computed from the serialized element content
alone, by its own fixed pattern. -/
def mkModelRow (name metaid : String) (c : List Char) : ModelRow :=
  ⟨name, metaid, chebiField c, hmdbField c, keggField c⟩

/-- mapMetabolicModel: one output row per rdf:li element of each species,
in document order. -/
def mapMetabolicModel (model : List SpeciesElem) : List ModelRow :=
  listFlat (fun s => s.items.map (mkModelRow s.name s.metaid)) model

/- ### queryMetaboAnalyst: the per-column identifier transform (claim C7)

For every column in the list [hmdb_id, kegg_id, pubchem_id, chebi_id,
chebi_id, metlin_id] the source runs
    data[id] = data[id].replace('-', np.nan)
    data[id] = data[id].astype(str)
Series.replace with a scalar replaces cells whose whole value equals the
scalar; astype(str) stringifies every cell, turning a float NaN into the
literal string nan. -/

/-- A pandas cell that is either a string or a float NaN. -/
inductive PyVal where
  | str (s : String)
  | nan
deriving DecidableEq

/-- Series.replace("-", np.nan) on one cell. -/
def replaceDash (v : PyVal) : PyVal :=
  if v = PyVal.str "-" then PyVal.nan else v

/-- astype(str) on one cell: a float NaN prints as the string nan. -/
def pyAstypeStr (v : PyVal) : PyVal :=
  match v with
  | PyVal.nan => PyVal.str "nan"
  | PyVal.str s => PyVal.str s

/-- The composite transform applied to every identifier cell of the
MetaboAnalyst response. -/
def idTransform (v : PyVal) : PyVal := pyAstypeStr (replaceDash v)

/-- Pandas missingness (isna) of a cell. -/
def isMissing : PyVal → Bool
  | PyVal.nan => true
  | PyVal.str _ => false

/- ### matchModelAndData with synmatch=False (claim C3)

The identifier columns on both sides are strings at this point (astype(str)
ran on both dataframes), so a missing identifier is the literal string nan
on both sides, and pd.merge joins on string equality.  The synmatch=False
branch performs no dropna. -/

/-- One row of the MetaboAnalyst identifier dataframe (the columns that
matchModelAndData consults). -/
structure DataRow where
  query : String
  chebi_id : String
  kegg_id : String
deriving DecidableEq

/-- A row of the intermediate chebi / kegg join tables, after the column
selection [Metabolite, query, BIGG, CHEBI] resp. [Metabolite, query, BIGG,
KEGG]; idval holds the selected identifier column. -/
structure JoinRow where
  metabolite : String
  query : String
  bigg : String
  idval : String
deriving DecidableEq

/-- One row of the merged model-data map returned by matchModelAndData. -/
structure MatchRow where
  metabolite : String
  query : String
  bigg : String
  chebi : String
  kegg : String
deriving DecidableEq

/-- pd.merge(modelMap, data, left_on="CHEBI", right_on="chebi_id") followed
by the column selection: inner join on string equality of the key columns,
left-row-major order. -/
def chebiJoin (modelMap : List ModelRow) (data : List DataRow) : List JoinRow :=
  listFlat (fun m =>
    (data.filter (fun d => m.chebi == d.chebi_id)).map
      (fun d => ⟨m.metabolite, d.query, m.bigg, m.chebi⟩)) modelMap

/-- pd.merge(modelMap, data, left_on="KEGG", right_on="kegg_id") followed
by the column selection. -/
def keggJoin (modelMap : List ModelRow) (data : List DataRow) : List JoinRow :=
  listFlat (fun m =>
    (data.filter (fun d => m.kegg == d.kegg_id)).map
      (fun d => ⟨m.metabolite, d.query, m.bigg, m.kegg⟩)) modelMap

/-- The inner merge of the chebi and kegg join tables on
[Metabolite, query, BIGG]. -/
def mergeChebiKegg (ct kt : List JoinRow) : List MatchRow :=
  listFlat (fun c =>
    (kt.filter (fun k =>
        c.metabolite == k.metabolite && c.query == k.query && c.bigg == k.bigg)).map
      (fun k => ⟨c.metabolite, c.query, c.bigg, c.idval, k.idval⟩)) ct

/-- matchModelAndData with synmatch=False: the two single-key joins, their
merge on [Metabolite, query, BIGG], and drop_duplicates("query",
keep="first").  No dropna is performed in this branch. -/
def matchModelAndData (modelMap : List ModelRow) (data : List DataRow) : List MatchRow :=
  dedupKey (fun r => r.query)
    (mergeChebiKegg (chebiJoin modelMap data) (keggJoin modelMap data))

/-- The reading of claim C3 in which nan does not count: a model row and a
data row share a ChEBI identifier or a KEGG identifier, where a shared
identifier must be an actual identifier and not the missing marker nan. -/
def sharesRealId (m : ModelRow) (d : DataRow) : Bool :=
  (m.chebi == d.chebi_id && m.chebi != "nan") ||
  (m.kegg == d.kegg_id && m.kegg != "nan")

/- ### queryPubChem: the per-name lookup loop (claim C4)

for metabolite in pubChemQuery:
    try:     ... per-name lookup and CSV append ...
    except (KeyError, TimeoutError, pcp.TimeoutError): continue
Only those three exception classes are caught; any other exception (for
example a TypeError) propagates and aborts the loop.  The lookup and the
per-item transformation inside the try block are abstracted into one
oracle returning either the text appended to the output CSV for that name
or the exception raised. -/

/-- The exceptions distinguished by the loop body. -/
inductive PCErr where
  | keyError
  | timeoutError
  | pcpTimeout
  | typeError
deriving DecidableEq

/-- Membership in the except clause of queryPubChem. -/
def caughtErr : PCErr → Bool
  | PCErr.keyError => true
  | PCErr.timeoutError => true
  | PCErr.pcpTimeout => true
  | PCErr.typeError => false

/-- The loop of queryPubChem: the first component is the sequence of
outputs appended to the CSV file, the second the exception that escaped
the loop, if any.  A caught exception skips the current name; an uncaught
one ends the loop with the names after it unprocessed. -/
def queryPubChemLoop (lookup : String → Except PCErr String) :
    List String → List String × Option PCErr
  | [] => ([], none)
  | n :: rest =>
    match lookup n with
    | Except.ok d =>
      match queryPubChemLoop lookup rest with
      | (ds, e) => (d :: ds, e)
    | Except.error e =>
      if caughtErr e then queryPubChemLoop lookup rest else ([], some e)

/- ### The file-extension dispatch of queryMetaboAnalyst and
constructFinalDataset (claim C5)

if os.path.splitext(filename)[1] is '.xls' or 'xlsx':
    fileData = pd.read_excel(filename, sheet_name=sheet)
else:
    fileData = pd.read_csv(filename)
Python parses the condition as (ext is '.xls') or ('xlsx'), and a nonempty
string literal is truthy, so the disjunction is true for every filename.
CPython identity (is) on the interned literal is approximated by string
equality below; the approximation is irrelevant because the second
disjunct is constant true. -/

/-- os.path.splitext(filename)[1]: the extension of the final path
component, where the leading dots of a basename never start an
extension. -/
def splitextExt (f : String) : String :=
  let base := (f.toList.reverse.takeWhile (fun c => c ≠ '/')).reverse
  let leading := (base.takeWhile (fun c => c = '.')).length
  let revTail := base.reverse.takeWhile (fun c => c ≠ '.')
  if leading + revTail.length + 1 ≤ base.length then
    String.mk (base.drop (base.length - revTail.length - 1))
  else ""

/-- CPython is on two strings, approximated by equality (see above). -/
def pyIsStr (a b : String) : Bool := a == b

/-- Truthiness of a Python string. -/
def pyTruthyStr (s : String) : Bool := s != ""

/-- The branch condition: true selects pd.read_excel, false selects
pd.read_csv.  This is the literal embedding of
os.path.splitext(filename)[1] is '.xls' or 'xlsx'. -/
def readAsExcel (filename : String) : Bool :=
  pyIsStr (splitextExt filename) ".xls" || pyTruthyStr "xlsx"

/- ### constructFinalDataset: cleaning and the final merge (claim C6)

patterns = ["[", "]", "'", '"', '.']
for p in patterns:
    all_compounds['Compound Method'] = .str.replace(p, ''); .str.strip()
    PositionModel.index = .str.replace(p, ''); .str.strip()
all_compounds['Compound Method'] = .str.lower()
PositionModel.index = .str.lower()
df = pd.merge(PositionModel, all_compounds,
              left_index=True, right_on='Compound Method', how='inner') -/

/-- The five single-character patterns removed by the cleanup loop:
opening bracket, closing bracket, single quote, double quote, dot. -/
def cleanPats : List Char := ['[', ']', '\x27', '\"', '.']

/-- The cleanup applied to the Compound Method column and to the
PositionModel index: per pattern a removal followed by a strip, then a
final lowercasing. -/
def cleanNameL (l : List Char) : List Char :=
  lowerL (cleanPats.foldl (fun acc p => stripL (removeChar p acc)) l)

/-- String version of the cleanup. -/
def cleanName (s : String) : String := String.mk (cleanNameL s.toList)

/-- One measurement row of the input file: the Compound Method cell and
the remaining measurement columns as labelled cells. -/
structure MeasRow where
  compound : String
  meas : List (String × String)
deriving DecidableEq

/-- One row of PositionModel: its index label (the query name) and its
columns (compartment positions and carried-over identifier columns) as
labelled cells. -/
structure PMRow where
  idx : String
  posvals : List (String × String)
deriving DecidableEq

/-- One row of the final merged dataframe. -/
structure FinalRow where
  posvals : List (String × String)
  compound : String
  meas : List (String × String)
deriving DecidableEq

/-- constructFinalDataset after the file read: both join keys are cleaned,
then the inner merge pairs each PositionModel row with the measurement
rows whose cleaned Compound Method equals its cleaned index. -/
def constructFinalDataset (pm : List PMRow) (rows : List MeasRow) : List FinalRow :=
  let rows2 := rows.map (fun r => (⟨cleanName r.compound, r.meas⟩ : MeasRow))
  let pm2 := pm.map (fun p => (⟨cleanName p.idx, p.posvals⟩ : PMRow))
  listFlat (fun p =>
    (rows2.filter (fun r => r.compound == p.idx)).map
      (fun r => ⟨p.posvals, r.compound, r.meas⟩)) pm2

/- ### mapMetabolitePositionsInModel (claims C2 and C10)

bigg_ids = mergedModelDataMap['BIGG'].replace('M_', '')   # value replace
for index, met in enumerate(mdl.metabolites):
    if any(str(met) in m for m in bigg_ids): append (index, met)
Compartment = rsplit('_')[-1]; Metabolite = split('_')[0]
biggRxn = pivot_table(index=Metabolite, columns=Compartment,
                      values=Position, aggfunc='mean', fill_value=0)
then BIGG is trimmed (split('_', 1)[-1], rsplit('_', 1)[0]), the merged
map is deduplicated on Metabolite, and the pivot is inner-merged with it
on pivot index = BIGG.  Float position means are modelled as exact
rationals. -/

/-- Indexing of the model metabolite list (Python enumerate). -/
def enumFrom : Nat → List String → List (Nat × String)
  | _, [] => []
  | k, m :: t => (k, m) :: enumFrom (k + 1) t

/-- Series.replace('M_', '') replaces only cells wholly equal to M_,
it does not strip prefixes. -/
def biggIdsOf (merged : List MatchRow) : List String :=
  merged.map (fun r => if r.bigg = "M_" then "" else r.bigg)

/-- The metabolites kept by the loop, with their enumerate index: those
whose str() occurs as a substring of some entry of bigg_ids. -/
def keptMets (mets : List String) (biggIds : List String) : List (Nat × String) :=
  (enumFrom 0 mets).filter
    (fun p => biggIds.any (fun b => containsSub p.2.toList b.toList))

/-- split('_')[0]: the metabolite key of a model metabolite id. -/
def metKeyS (s : String) : String :=
  String.mk (s.toList.takeWhile (fun c => c ≠ '_'))

/-- rsplit('_')[-1]: the compartment suffix of a model metabolite id. -/
def metCompS (s : String) : String :=
  String.mk ((s.toList.reverse.takeWhile (fun c => c ≠ '_')).reverse)

/-- The Position entries aggregated into the pivot cell (key, comp): the
enumerate indices of the kept metabolites with that metabolite key and
that compartment suffix. -/
def positionsFor (mets biggIds : List String) (key comp : String) : List Nat :=
  ((keptMets mets biggIds).filter
      (fun p => metKeyS p.2 == key && metCompS p.2 == comp)).map Prod.fst

/-- The pivot cell value: the arithmetic mean of the aggregated positions
(aggfunc='mean'), or the fill value 0 when no position falls in the
cell. -/
def pivotValue (mets biggIds : List String) (key comp : String) : ℚ :=
  let ps := positionsFor mets biggIds key comp
  if ps.isEmpty then 0 else (ps.map (fun n => (n : ℚ))).sum / (ps.length : ℚ)

/-- The row labels of the pivot table (first-occurrence order; pandas
sorts them, which no claim depends on). -/
def pivotKeys (mets biggIds : List String) : List String :=
  dedupKey (fun k => k) ((keptMets mets biggIds).map (fun p => metKeyS p.2))

/-- The column labels of the pivot table. -/
def compartmentsOf (mets biggIds : List String) : List String :=
  dedupKey (fun k => k) ((keptMets mets biggIds).map (fun p => metCompS p.2))

/-- split('_', 1)[-1]: drop the first underscore-separated segment when an
underscore exists. -/
def afterFirstUnderscore (l : List Char) : List Char :=
  match l.dropWhile (fun c => c ≠ '_') with
  | [] => l
  | _ :: t => t

/-- rsplit('_', 1)[0]: drop the last underscore-separated segment when an
underscore exists. -/
def beforeLastUnderscore (l : List Char) : List Char :=
  match l.reverse.dropWhile (fun c => c ≠ '_') with
  | [] => l
  | _ :: t => t.reverse

/-- The BIGG trimming of lines 319-320 of the source. -/
def transformBigg (s : String) : String :=
  String.mk (beforeLastUnderscore (afterFirstUnderscore s.toList))

/-- One row of the table returned by mapMetabolitePositionsInModel: the
query name (made the index by the final set_index), the carried columns of
the merged map, the pivot row label it matched, and one labelled cell per
compartment column.  Column-label details of the pandas objects (the index
names) are elided. -/
structure PosOutRow where
  query : String
  metabolite : String
  chebi : String
  kegg : String
  pivotKey : String
  vals : List (String × ℚ)
deriving DecidableEq

/-- mapMetabolitePositionsInModel: build the pivot from the model list and
bigg_ids, trim BIGG in the merged map, deduplicate it on Metabolite, and
inner-merge the pivot with it on pivot index = trimmed BIGG. -/
def mapMetabolitePositionsInModel (mets : List String) (merged : List MatchRow) :
    List PosOutRow :=
  let bigg := biggIdsOf merged
  let merged2 := merged.map (fun r =>
    (⟨r.metabolite, r.query, transformBigg r.bigg, r.chebi, r.kegg⟩ : MatchRow))
  let dd := dedupKey (fun r => r.metabolite) merged2
  listFlat (fun key =>
    (dd.filter (fun r => r.bigg == key)).map (fun r =>
      ⟨r.query, r.metabolite, r.chebi, r.kegg, key,
       (compartmentsOf mets bigg).map
         (fun comp => (comp, pivotValue mets bigg key comp))⟩))
    (pivotKeys mets bigg)

/- ### utilities.convert_to_string (claim C8)

df[col] = df[col].fillna(-1)
df[col] = df[col].astype(int)
df[col] = df[col].astype(str)
df[col] = df[col].replace('-1', np.nan)
The column starts as floats with NaN for missing cells; astype(int)
truncates each float toward zero; astype(str) renders the integer in
decimal; Series.replace then turns cells wholly equal to the string -1
back into NaN.  Floats are modelled as exact rationals and str(int(x)) by
an explicit decimal rendering. -/

/-- A numeric cell before the conversion. -/
inductive Cell where
  | missing
  | val (q : ℚ)
deriving DecidableEq

/-- A cell after the conversion: a string or a missing value. -/
inductive SCell where
  | smissing
  | sval (s : String)
deriving DecidableEq

/-- astype(int) on one float: truncation toward zero. -/
def truncQ (q : ℚ) : Int := Int.tdiv q.num q.den

/-- Decimal digits of a natural number, most significant first, with
explicit fuel so that the recursion is structural and kernel-reducible.
The fuel n + 1 used below always suffices. -/
def natDigitsF : Nat → Nat → List Char
  | 0, _ => []
  | fuel + 1, n =>
    if n < 10 then [Nat.digitChar n]
    else natDigitsF fuel (n / 10) ++ [Nat.digitChar (n % 10)]

/-- str() of an integer, as a character list. -/
def intStrL (i : Int) : List Char :=
  if i < 0 then '-' :: natDigitsF (i.natAbs + 1) i.natAbs
  else natDigitsF (i.toNat + 1) i.toNat

/-- str() of an integer. -/
def intStr (i : Int) : String := String.mk (intStrL i)

/-- convert_to_string on one cell of the column. -/
def convert_to_string (c : Cell) : SCell :=
  let q : ℚ := match c with | Cell.missing => -1 | Cell.val x => x
  let s := intStr (truncQ q)
  if s = "-1" then SCell.smissing else SCell.sval s

/- ### utilities.sep_object (claim C9)

s = df[col].str.split(regex).apply(pd.Series, 1).stack()
s.index = s.index.droplevel(-1); s.name = col
del df[col]
df = pd.merge(df, s, how='inner', left_index=True, right_index=True)
df = df.drop_duplicates(keep='first')
Stacking the split produces one entry per fragment carrying the original
row index, so the index merge pairs every fragment with the other columns
of its originating row; drop_duplicates then removes exact duplicate rows.
The splitter is passed in as a function, exactly as the regex argument of
the source. -/

/-- One row of the dataframe passed to sep_object: the column being split
and the remaining columns as labelled cells. -/
structure SepRow where
  other : List (String × String)
  colv : String
deriving DecidableEq

/-- sep_object: split the column, one output row per fragment carrying the
originating row's other columns, then drop exact duplicate rows keeping
the first. -/
def sep_object (splitF : String → List String) (df : List SepRow) : List SepRow :=
  dedupKey (fun r => r)
    (listFlat (fun r => (splitF r.colv).map (fun f => (⟨r.other, f⟩ : SepRow))) df)

/-- Helper for splitSemi: accumulate the current fragment in reverse. -/
def splitSemiAux : List Char → List Char → List (List Char)
  | [], acc => [acc.reverse]
  | c :: t, acc =>
    if c = ';' then acc.reverse :: splitSemiAux t [] else splitSemiAux t (c :: acc)

/-- A splitter used in concrete instances: split at semicolons (a
single-character separator regex, containing no metacharacters). -/
def splitSemi (s : String) : List String :=
  (splitSemiAux s.toList []).map String.mk

/- ### Concrete instances used by witnesses and counterexamples -/

/-- A lookup oracle raising an uncaught TypeError for one name. -/
def lookupCE : String → Except PCErr String := fun s =>
  if s = "atp" then Except.error PCErr.typeError else Except.ok s

/-- A lookup oracle raising a caught KeyError for one name. -/
def lookupW : String → Except PCErr String := fun s =>
  if s = "h2o" then Except.error PCErr.keyError else Except.ok s

/-- The float -1.5. -/
def negThreeHalves : ℚ := -(3 : ℚ) / 2

/-- The float 3.5. -/
def sevenHalves : ℚ := (7 : ℚ) / 2

/-- A serialized rdf:li element carrying a ChEBI resource URI. -/
def c1li : List Char :=
  ("<rdf:li rdf:resource=\"http://identifiers.org/chebi/CHEBI:17234\"/>").toList

/-- The part of c1li before the ChEBI pattern. -/
def c1pre : List Char := ("<rdf:li rdf:resource=\"").toList

/-- The digit group of c1li. -/
def c1n : List Char := ("17234").toList

/-- The part of c1li after the digit group. -/
def c1post : List Char := ("\"/>").toList

/-- A species carrying the annotation element c1li. -/
def c1species : SpeciesElem := ⟨("glucose"), ("M_glc_DASH_D_c"), [c1li]⟩

/-- A model map row with every identifier missing (the string nan). -/
def c3model : List ModelRow := [⟨("glc"), ("M_glc_c"), ("nan"), ("nan"), ("nan")⟩]

/-- A data row with every identifier missing (the string nan). -/
def c3data : List DataRow := [⟨("glucose"), ("nan"), ("nan")⟩]

/-- A model map row with real ChEBI and KEGG identifiers. -/
def c3model2 : List ModelRow :=
  [⟨("glc"), ("M_glc_c"), ("17234"), ("HMDB0000122"), ("C00031")⟩]

/-- A data row sharing the ChEBI and KEGG identifiers of c3model2. -/
def c3data2 : List DataRow := [⟨("glucose"), ("17234"), ("C00031")⟩]

/-- The row matchModelAndData returns for c3model2 and c3data2. -/
def c3row : MatchRow := ⟨("glc"), ("glucose"), ("M_glc_c"), ("17234"), ("C00031")⟩

/-- A position table row indexed by a query name. -/
def c6pm : List PMRow := [⟨("D-Glucose"), [(("c"), ("12"))]⟩]

/-- A measurement row whose Compound Method cell cleans to the index of
c6pm. -/
def c6rows : List MeasRow := [⟨(" d-glucose."), [(("t0"), ("1.5"))]⟩]

/-- The output row of constructFinalDataset on c6pm and c6rows. -/
def c6out : FinalRow := ⟨[(("c"), ("12"))], ("d-glucose"), [(("t0"), ("1.5"))]⟩

/-- A dataframe for sep_object with one separator-bearing row. -/
def c9df : List SepRow := [⟨[(("id"), ("1"))], ("a;b")⟩, ⟨[(("id"), ("2"))], ("c")⟩]

/-- A model metabolite list and merged map for the position witness. -/
def c2mets : List String := [("h2o_c"), ("glc_c")]

/-- The merged map row matching the second metabolite of c2mets. -/
def c2merged : List MatchRow :=
  [⟨("glucose"), ("q1"), ("M_glc_c"), ("17234"), ("C00031")⟩]

/-- The bigg_ids list built from c2merged. -/
def c2bigg : List String := biggIdsOf c2merged

/-- The output row of mapMetabolitePositionsInModel on c2mets and
c2merged, with its compartment cells written as the pivot builds them. -/
def c2row : PosOutRow :=
  ⟨("q1"), ("glucose"), ("17234"), ("C00031"), ("glc"),
   (compartmentsOf c2mets c2bigg).map
     (fun comp => (comp, pivotValue c2mets c2bigg ("glc") comp))⟩

/- ### Helper lemmas -/

theorem mem_listFlat {f : α → List β} {b : β} :
    ∀ {l : List α}, b ∈ listFlat f l ↔ ∃ a ∈ l, b ∈ f a := by
  intro l
  induction l with
  | nil => simp [listFlat]
  | cons a t ih => simp [listFlat, ih, List.mem_append]

theorem mem_of_mem_dedupKeyAux {key : α → β} [DecidableEq β] {a : α} :
    ∀ {l : List α} {seen : List β}, a ∈ dedupKeyAux key seen l → a ∈ l := by
  intro l
  induction l with
  | nil => intro seen h; simp [dedupKeyAux] at h
  | cons x t ih =>
    intro seen h
    simp only [dedupKeyAux] at h
    by_cases hx : key x ∈ seen
    · simp only [if_pos hx] at h
      exact List.mem_cons_of_mem x (ih h)
    · simp only [if_neg hx, List.mem_cons] at h
      rcases h with h | h
      · exact h ▸ List.mem_cons_self x t
      · exact List.mem_cons_of_mem x (ih h)

theorem key_notMem_of_mem_dedupKeyAux {key : α → β} [DecidableEq β] {a : α} :
    ∀ {l : List α} {seen : List β}, a ∈ dedupKeyAux key seen l → key a ∉ seen := by
  intro l
  induction l with
  | nil => intro seen h; simp [dedupKeyAux] at h
  | cons x t ih =>
    intro seen h
    simp only [dedupKeyAux] at h
    by_cases hx : key x ∈ seen
    · simp only [if_pos hx] at h
      exact ih h
    · simp only [if_neg hx, List.mem_cons] at h
      rcases h with h | h
      · exact h ▸ hx
      · intro hmem
        exact ih h (List.mem_cons_of_mem _ hmem)

theorem pairwise_dedupKeyAux {key : α → β} [DecidableEq β] :
    ∀ {l : List α} {seen : List β},
      List.Pairwise (fun x y => key x ≠ key y) (dedupKeyAux key seen l) := by
  intro l
  induction l with
  | nil => intro seen; simp [dedupKeyAux]
  | cons x t ih =>
    intro seen
    simp only [dedupKeyAux]
    by_cases hx : key x ∈ seen
    · simp only [if_pos hx]; exact ih
    · simp only [if_neg hx]
      refine List.Pairwise.cons ?_ ih
      intro y hy heq
      exact key_notMem_of_mem_dedupKeyAux hy (heq ▸ List.mem_cons_self _ _)

theorem mem_dedupKeyAux_id [DecidableEq α] {a : α} :
    ∀ {l : List α} {seen : List α},
      a ∈ dedupKeyAux (fun x => x) seen l ↔ a ∈ l ∧ a ∉ seen := by
  intro l
  induction l with
  | nil => intro seen; simp [dedupKeyAux]
  | cons x t ih =>
    intro seen
    simp only [dedupKeyAux]
    by_cases hx : x ∈ seen
    · simp only [if_pos hx, ih, List.mem_cons]
      constructor
      · rintro ⟨h1, h2⟩; exact ⟨Or.inr h1, h2⟩
      · rintro ⟨h1 | h1, h2⟩
        · exact absurd (h1 ▸ hx) h2
        · exact ⟨h1, h2⟩
    · simp only [if_neg hx, List.mem_cons, ih]
      constructor
      · rintro (h | ⟨h1, h2⟩)
        · exact ⟨Or.inl h, h ▸ hx⟩
        · refine ⟨Or.inr h1, fun hs => h2 (Or.inr hs)⟩
      · rintro ⟨h1 | h1, h2⟩
        · exact Or.inl h1
        · by_cases hax : a = x
          · exact Or.inl hax
          · exact Or.inr ⟨h1, by simp [List.mem_cons, hax, h2]⟩

theorem beginsWith_append (p z : List Char) : beginsWith p (p ++ z) = true := by
  induction p with
  | nil => simp [beginsWith]
  | cons c t ih => simp [beginsWith, ih]

theorem findLastAfter_append_some {pat b : List Char} {r : List Char}
    (h : findLastAfter pat b = some r) :
    ∀ a : List Char, findLastAfter pat (a ++ b) = some r := by
  intro a
  induction a with
  | nil => simpa using h
  | cons c t ih => simp [findLastAfter, ih]

theorem takeWhile_digits {n post : List Char}
    (hd : n.all Char.isDigit = true) (hp : headNotDigit post = true) :
    List.takeWhile Char.isDigit (n ++ post) = n := by
  induction n with
  | nil =>
    cases post with
    | nil => simp
    | cons c t =>
      simp only [headNotDigit, Bool.not_eq_true'] at hp
      simp [List.takeWhile, hp]
  | cons c t ih =>
    simp only [List.all_cons, Bool.and_eq_true] at hd
    simp [List.takeWhile, hd.1, ih hd.2]

theorem findLastAfter_here {pat n post : List Char}
    (hpat : pat ≠ []) (hn : n ≠ []) (hd : n.all Char.isDigit = true)
    (hp : headNotDigit post = true)
    (hafter : findLastAfter pat (pat.drop 1 ++ n ++ post) = none) :
    findLastAfter pat (pat ++ n ++ post) = some n := by
  cases pat with
  | nil => exact absurd rfl hpat
  | cons c ct =>
    have hrest : findLastAfter (c :: ct) (ct ++ n ++ post) = none := by
      simpa using hafter
    have hcons : (c :: ct) ++ n ++ post = c :: (ct ++ n ++ post) := by simp
    rw [hcons, findLastAfter, hrest]
    have hbw : beginsWith (c :: ct) (c :: (ct ++ n ++ post)) = true := by
      have := beginsWith_append (c :: ct) (n ++ post)
      simpa using this
    rw [hbw]
    simp only [if_true]
    have hdrop : List.drop (c :: ct).length (c :: (ct ++ n ++ post)) = n ++ post := by
      have h2 := List.drop_left (c :: ct) (n ++ post)
      simp only [List.cons_append, List.append_assoc] at h2
      simp [h2]
    rw [hdrop, takeWhile_digits hd hp]
    simp [List.isEmpty_iff, hn]

theorem natDigitsF_ne_nil (f n : Nat) : natDigitsF (f + 1) n ≠ [] := by
  simp only [natDigitsF]
  by_cases h : n < 10
  · simp [h]
  · simp [h]

theorem mem_natDigitsF_isDigit :
    ∀ (f n : Nat) (c : Char), c ∈ natDigitsF f n → c.isDigit = true := by
  intro f
  induction f with
  | zero => intro n c h; simp [natDigitsF] at h
  | succ f ih =>
    intro n c h
    have hdig : ∀ m : Nat, m < 10 → (Nat.digitChar m).isDigit = true := by
      intro m hm
      revert hm
      match m with
      | 0 => intro _; decide
      | 1 => intro _; decide
      | 2 => intro _; decide
      | 3 => intro _; decide
      | 4 => intro _; decide
      | 5 => intro _; decide
      | 6 => intro _; decide
      | 7 => intro _; decide
      | 8 => intro _; decide
      | 9 => intro _; decide
      | m + 10 => intro hm; omega
    simp only [natDigitsF] at h
    by_cases hn : n < 10
    · simp only [if_pos hn, List.mem_singleton] at h
      exact h ▸ hdig n hn
    · simp only [if_neg hn, List.mem_append, List.mem_singleton] at h
      rcases h with h | h
      · exact ih (n / 10) c h
      · exact h ▸ hdig (n % 10) (Nat.mod_lt n (by omega))

theorem digitChar_eq_one (m : Nat) (hm : m < 10) (h : Nat.digitChar m = '1') :
    m = 1 := by
  revert hm h
  match m with
  | 0 => intro _ h; exact absurd h (by decide)
  | 1 => intro _ _; rfl
  | 2 => intro _ h; exact absurd h (by decide)
  | 3 => intro _ h; exact absurd h (by decide)
  | 4 => intro _ h; exact absurd h (by decide)
  | 5 => intro _ h; exact absurd h (by decide)
  | 6 => intro _ h; exact absurd h (by decide)
  | 7 => intro _ h; exact absurd h (by decide)
  | 8 => intro _ h; exact absurd h (by decide)
  | 9 => intro _ h; exact absurd h (by decide)
  | m + 10 => intro hm; omega

theorem natDigitsF_eq_one (n : Nat) (h : natDigitsF (n + 1) n = ['1']) : n = 1 := by
  by_cases hn : n < 10
  · simp only [natDigitsF, if_pos hn, List.cons.injEq] at h
    exact digitChar_eq_one n hn h.1
  · exfalso
    simp only [natDigitsF, if_neg hn] at h
    obtain ⟨f, hf⟩ : ∃ f, n = f + 1 := ⟨n - 1, by omega⟩
    subst hf
    have hne : natDigitsF (f + 1) ((f + 1) / 10) ≠ [] :=
      natDigitsF_ne_nil f ((f + 1) / 10)
    cases hxs : natDigitsF (f + 1) ((f + 1) / 10) with
    | nil => exact hne hxs
    | cons y ys =>
      rw [hxs] at h
      have hlen := congrArg List.length h
      simp at hlen

theorem intStr_eq_neg_one (i : Int) : intStr i = "-1" ↔ i = -1 := by
  have hlit : ("-1" : String) = String.mk ['-', '1'] := by decide
  constructor
  · intro h
    rw [hlit, intStr] at h
    have h := congrArg String.data h
    simp only at h
    by_cases hneg : i < 0
    · rw [intStrL, if_pos hneg] at h
      simp only [List.cons.injEq] at h
      have h1 := natDigitsF_eq_one i.natAbs h.2
      omega
    · exfalso
      rw [intStrL, if_neg hneg] at h
      have hmem : ('-' : Char) ∈ natDigitsF (i.toNat + 1) i.toNat := by
        rw [h]; exact List.mem_cons_self _ _
      have := mem_natDigitsF_isDigit (i.toNat + 1) i.toNat '-' hmem
      exact absurd this (by decide)
  · intro h
    rw [h]
    decide

theorem findLastAfter_of_parts {pat pre n post : List Char}
    (hpat : pat ≠ []) (hn : n ≠ []) (hd : n.all Char.isDigit = true)
    (hp : headNotDigit post = true)
    (hafter : findLastAfter pat (pat.drop 1 ++ n ++ post) = none) :
    findLastAfter pat (pre ++ pat ++ n ++ post) = some n := by
  have hbase := findLastAfter_here hpat hn hd hp hafter
  have := findLastAfter_append_some hbase pre
  simpa [List.append_assoc] using this

theorem pivotValue_singleton {mets biggIds : List String} {key comp : String}
    {i : Nat} (h : positionsFor mets biggIds key comp = [i]) :
    pivotValue mets biggIds key comp = (i : ℚ) := by
  simp [pivotValue, h]

/- ### Claim theorems -/

/-- C5: the claim says a file whose extension is .xls or .xlsx is read as
a spreadsheet and any other extension is read as a delimited file.  In the
code the branch condition is the Python expression
os.path.splitext(filename)[1] is '.xls' or 'xlsx', which is the
disjunction of an identity test with the constant truthy literal xlsx, so
the Excel reader is selected for every filename and the CSV branch is
dead code.  The same line occurs in queryMetaboAnalyst and in
constructFinalDataset. -/
theorem spec_c5_excel_branch_always (filename : String) :
    readAsExcel filename = true := by
  have h : pyTruthyStr ("xlsx") = true := by decide
  simp [readAsExcel, h]

/-- C7 counterexample: a cell returned as a dash is mapped by
replace('-', np.nan) followed by astype(str) to the literal string nan,
which is not a missing value (pandas isna is false on it), contradicting
the claim that the dash is stored as an absent or missing value. -/
theorem spec_c7_counterexample :
    idTransform (PyVal.str ("-")) = PyVal.str ("nan") ∧
    isMissing (idTransform (PyVal.str ("-"))) = false := by decide

/-- C7 amended: a dash cell is replaced by NaN and then stringified by
astype(str) to the sentinel string nan; any other string cell passes
through unchanged, so a lookup miss is distinguishable from every
identifier other than the literal string nan, but it is stored as a
present string, not as a missing value. -/
theorem spec_c7_nan_sentinel (s : String) (hdash : s ≠ "-") (hnan : s ≠ "nan") :
    idTransform (PyVal.str ("-")) = PyVal.str ("nan") ∧
    idTransform PyVal.nan = PyVal.str ("nan") ∧
    idTransform (PyVal.str s) = PyVal.str s ∧
    idTransform (PyVal.str s) ≠ idTransform (PyVal.str ("-")) := by
  refine ⟨by decide, by decide, ?_, ?_⟩
  · simp [idTransform, replaceDash, pyAstypeStr, hdash]
  · simp [idTransform, replaceDash, pyAstypeStr, hdash, hnan]

/-- C7 witness: the amended statement at the identifier C00031. -/
theorem spec_c7_witness :
    idTransform (PyVal.str ("-")) = PyVal.str ("nan") ∧
    idTransform PyVal.nan = PyVal.str ("nan") ∧
    idTransform (PyVal.str ("C00031")) = PyVal.str ("C00031") ∧
    idTransform (PyVal.str ("C00031")) ≠ idTransform (PyVal.str ("-")) :=
  spec_c7_nan_sentinel ("C00031") (by decide) (by decide)

/-- C4 counterexample: a per-name failure that is a type error is not in
the except clause (KeyError, TimeoutError, pcp.TimeoutError), so it is not
skipped: it aborts the loop and the output for the remaining names is
lost, contradicting the claim for the type-error case. -/
theorem spec_c4_counterexample :
    queryPubChemLoop lookupCE [("atp"), ("nadh")] = ([], some PCErr.typeError) ∧
    queryPubChemLoop lookupCE [("nadh")] = ([("nadh")], none) := by decide

/-- C4 amended: when the lookup of one name fails with a caught exception
(a lookup miss KeyError or a timeout), that name is skipped and the loop
output is exactly the output on the list without that name; an uncaught
failure such as a TypeError instead stops the loop. -/
theorem spec_c4_skip_caught (lookup : String → Except PCErr String)
    (pre post : List String) (bad : String) (e : PCErr)
    (hbad : lookup bad = Except.error e) (hcaught : caughtErr e = true) :
    queryPubChemLoop lookup (pre ++ bad :: post) =
      queryPubChemLoop lookup (pre ++ post) := by
  induction pre with
  | nil => simp [queryPubChemLoop, hbad, hcaught]
  | cons x t ih =>
    simp only [List.cons_append, queryPubChemLoop, List.append_eq] at ih ⊢
    rw [ih]

/-- C4 witness: the amended statement on a concrete name list with a
caught KeyError in the middle. -/
theorem spec_c4_witness :
    queryPubChemLoop lookupW [("glc"), ("h2o"), ("asp")] =
      queryPubChemLoop lookupW [("glc"), ("asp")] :=
  spec_c4_skip_caught lookupW [("glc")] [("asp")] ("h2o") PCErr.keyError
    (by rfl) (by decide)

/-- C8 counterexample: the float -1.5 is neither missing nor equal to -1,
yet convert_to_string maps it to a missing value (its truncation is -1 and
the string -1 is replaced by NaN), not to the decimal string of its
truncation as the claim states. -/
theorem spec_c8_counterexample :
    negThreeHalves ≠ (-1 : ℚ) ∧
    convert_to_string (Cell.val negThreeHalves) = SCell.smissing ∧
    SCell.smissing ≠ SCell.sval (intStr (truncQ negThreeHalves)) := by
  have ht : truncQ negThreeHalves = -1 := by
    norm_num [negThreeHalves, truncQ]
    decide
  have hs : intStr (-1) = "-1" := by decide
  refine ⟨by norm_num [negThreeHalves], ?_, by simp⟩
  simp [convert_to_string, ht, hs]

/-- C8 amended: a missing cell is mapped to a missing cell, and a value
cell is mapped to the decimal string of its truncation toward zero,
except that every value whose truncation equals -1 (the fillna sentinel,
hence also -1.5 or -1 itself) is mapped to a missing cell,
indistinguishable from an originally missing one. -/
theorem spec_c8_convert (q : ℚ) :
    convert_to_string Cell.missing = SCell.smissing ∧
    (truncQ q = -1 → convert_to_string (Cell.val q) = SCell.smissing) ∧
    (truncQ q ≠ -1 →
      convert_to_string (Cell.val q) = SCell.sval (intStr (truncQ q))) := by
  have hs : intStr (-1) = "-1" := by decide
  have hm : truncQ (-1 : ℚ) = -1 := by norm_num [truncQ]
  refine ⟨?_, ?_, ?_⟩
  · simp [convert_to_string, hm, hs]
  · intro h
    simp [convert_to_string, h, hs]
  · intro h
    have hne : intStr (truncQ q) ≠ "-1" :=
      fun hc => h ((intStr_eq_neg_one (truncQ q)).mp hc)
    simp [convert_to_string, hne]

/-- C8 witness: the amended statement at -1.5 (truncation -1, mapped to
missing) and at 3.5 (truncation 3, mapped to its decimal string). -/
theorem spec_c8_witness :
    convert_to_string (Cell.val negThreeHalves) = SCell.smissing ∧
    convert_to_string (Cell.val sevenHalves) =
      SCell.sval (intStr (truncQ sevenHalves)) :=
  ⟨(spec_c8_convert negThreeHalves).2.1 (by norm_num [negThreeHalves, truncQ]; decide),
   (spec_c8_convert sevenHalves).2.2 (by norm_num [sevenHalves, truncQ]; decide)⟩

/-- C1: for every model and every species with an rdf:li annotation
element whose serialized content carries a resource URI of the form
http://identifiers.org/chebi/CHEBI: followed by a digit string n (the URI
being the last point where the ChEBI pattern matches, as for a single
resource attribute), mapMetabolicModel produces a row for that species
whose CHEBI field is exactly the digit string n; the HMDB and KEGG fields
of the same row are computed from the same content by their own fixed
patterns, independent of the ChEBI one. -/
theorem spec_c1_chebi_extraction (model : List SpeciesElem) (s : SpeciesElem)
    (c pre n post : List Char)
    (hs : s ∈ model) (hc : c ∈ s.items)
    (hform : c = pre ++ chebiPat ++ n ++ post)
    (hn : n ≠ []) (hd : n.all Char.isDigit = true)
    (hp : headNotDigit post = true)
    (hlast : findLastAfter chebiPat (chebiPat.drop 1 ++ n ++ post) = none) :
    ∃ r ∈ mapMetabolicModel model,
      r.metabolite = s.name ∧ r.bigg = s.metaid ∧
      r.chebi = String.mk n ∧ r.hmdb = hmdbField c ∧ r.kegg = keggField c := by
  refine ⟨mkModelRow s.name s.metaid c, ?_, rfl, rfl, ?_, rfl, rfl⟩
  · rw [mapMetabolicModel, mem_listFlat]
    exact ⟨s, hs, List.mem_map.mpr ⟨c, hc, rfl⟩⟩
  · have hpatne : chebiPat ≠ [] := by decide
    have hfound := @findLastAfter_of_parts chebiPat pre n post hpatne hn hd hp hlast
    show chebiField c = String.mk n
    rw [hform, chebiField, hfound]

/-- C1 witness: the extraction at a concrete serialized rdf:li element
with the resource URI of CHEBI:17234. -/
theorem spec_c1_witness :
    ∃ r ∈ mapMetabolicModel [c1species],
      r.metabolite = c1species.name ∧ r.bigg = c1species.metaid ∧
      r.chebi = String.mk c1n ∧ r.hmdb = hmdbField c1li ∧ r.kegg = keggField c1li :=
  spec_c1_chebi_extraction [c1species] c1species c1li c1pre c1n c1post
    (by decide) (by decide) (by decide) (by decide) (by decide) (by decide)
    (by decide)

/-- C9: if the separator has no occurrence in the split column (every
split yields the one-fragment list with the original value), sep_object
returns the dataframe with exact duplicate rows removed, first occurrence
kept; in general every output row is one split fragment of some input row
carrying the other columns of that row unchanged, and conversely every
fragment of every input row is represented by such an output row. -/
theorem spec_c9_sep_object (splitF : String → List String) (df : List SepRow) :
    ((∀ r ∈ df, splitF r.colv = [r.colv]) →
      sep_object splitF df = dedupKey (fun r => r) df) ∧
    (∀ r2 ∈ sep_object splitF df,
      ∃ r ∈ df, r2.other = r.other ∧ r2.colv ∈ splitF r.colv) ∧
    (∀ r ∈ df, ∀ f ∈ splitF r.colv,
      ∃ r2 ∈ sep_object splitF df, r2.other = r.other ∧ r2.colv = f) := by
  refine ⟨?_, ?_, ?_⟩
  · intro h
    have hexp : listFlat (fun r => (splitF r.colv).map
        (fun f => (⟨r.other, f⟩ : SepRow))) df = df := by
      induction df with
      | nil => rfl
      | cons x t ih =>
        have hx := h x (List.mem_cons_self x t)
        have ht : ∀ r ∈ t, splitF r.colv = [r.colv] :=
          fun r hr => h r (List.mem_cons_of_mem x hr)
        simp [listFlat, hx, ih ht]

    rw [sep_object, hexp]
  · intro r2 h2
    have h3 := mem_of_mem_dedupKeyAux h2
    rw [mem_listFlat] at h3
    obtain ⟨r, hr, hmap⟩ := h3
    rw [List.mem_map] at hmap
    obtain ⟨f, hf, heq⟩ := hmap
    exact ⟨r, hr, by rw [← heq], by rw [← heq]; exact hf⟩
  · intro r hr f hf
    refine ⟨⟨r.other, f⟩, ?_, rfl, rfl⟩
    rw [sep_object]
    rw [show dedupKey (fun r => r) = dedupKey (fun x : SepRow => x) from rfl]
    rw [dedupKey, mem_dedupKeyAux_id]
    refine ⟨?_, by simp⟩
    rw [mem_listFlat]
    exact ⟨r, hr, List.mem_map.mpr ⟨f, hf, rfl⟩⟩

/-- C9 witness: sep_object with a semicolon splitter on a concrete
dataframe represents the first fragment of the first row. -/
theorem spec_c9_witness :
    ∃ r2 ∈ sep_object splitSemi c9df,
      r2.other = [(("id"), ("1"))] ∧ r2.colv = ("a") :=
  (spec_c9_sep_object splitSemi c9df).2.2
    ⟨[(("id"), ("1"))], ("a;b")⟩ (by decide) ("a") (by decide)

/-- C3 counterexample: with every identifier missing (the string nan on
both sides after astype(str)), the two joins of the synmatch=False branch
still match, since the branch performs no dropna, and the function returns
a row although its generating model row and data row share no ChEBI and no
KEGG identifier. -/
theorem spec_c3_counterexample :
    matchModelAndData c3model c3data ≠ [] ∧
    (∀ m ∈ c3model, ∀ d ∈ c3data, sharesRealId m d = false) := by decide

/-- C3 amended: every returned row is produced by a model row and a data
row with equal CHEBI strings and by a pair with equal KEGG strings, where
a missing identifier is the literal string nan and two missing identifiers
also compare equal; and no two returned rows share a query value
(duplicates are removed, first occurrence kept). -/
theorem spec_c3_join_keys (modelMap : List ModelRow) (data : List DataRow) :
    (∀ r ∈ matchModelAndData modelMap data,
      (∃ m ∈ modelMap, ∃ d ∈ data,
        m.chebi = d.chebi_id ∧ r.metabolite = m.metabolite ∧ r.bigg = m.bigg ∧
        r.query = d.query ∧ r.chebi = m.chebi) ∧
      (∃ m2 ∈ modelMap, ∃ d2 ∈ data,
        m2.kegg = d2.kegg_id ∧ r.metabolite = m2.metabolite ∧ r.bigg = m2.bigg ∧
        r.query = d2.query ∧ r.kegg = m2.kegg)) ∧
    List.Pairwise (fun a b => a.query ≠ b.query) (matchModelAndData modelMap data) := by
  constructor
  · intro r hr
    have h1 : r ∈ mergeChebiKegg (chebiJoin modelMap data) (keggJoin modelMap data) :=
      mem_of_mem_dedupKeyAux hr
    rw [mergeChebiKegg, mem_listFlat] at h1
    obtain ⟨cR, hcR, hmap⟩ := h1
    rw [List.mem_map] at hmap
    obtain ⟨kR, hkR, heq⟩ := hmap
    rw [List.mem_filter] at hkR
    obtain ⟨hkR, hcond⟩ := hkR
    simp only [Bool.and_eq_true, beq_iff_eq] at hcond
    rw [chebiJoin, mem_listFlat] at hcR
    obtain ⟨m, hm, hmap2⟩ := hcR
    rw [List.mem_map] at hmap2
    obtain ⟨d, hd, heqc⟩ := hmap2
    rw [List.mem_filter] at hd
    obtain ⟨hd, hdcond⟩ := hd
    rw [beq_iff_eq] at hdcond
    rw [keggJoin, mem_listFlat] at hkR
    obtain ⟨m2, hm2, hmap3⟩ := hkR
    rw [List.mem_map] at hmap3
    obtain ⟨d2, hd2, heqk⟩ := hmap3
    rw [List.mem_filter] at hd2
    obtain ⟨hd2, hd2cond⟩ := hd2
    rw [beq_iff_eq] at hd2cond
    subst heq
    subst heqc
    subst heqk
    exact ⟨⟨m, hm, d, hd, hdcond, rfl, rfl, rfl, rfl⟩,
           ⟨m2, hm2, d2, hd2, hd2cond, hcond.1.1, hcond.2, hcond.1.2, rfl⟩⟩
  · exact pairwise_dedupKeyAux

/-- C3 witness: the amended statement on a model row and data row sharing
a real ChEBI identifier and a real KEGG identifier. -/
theorem spec_c3_witness :
    (∃ m ∈ c3model2, ∃ d ∈ c3data2,
      m.chebi = d.chebi_id ∧ c3row.metabolite = m.metabolite ∧
      c3row.bigg = m.bigg ∧ c3row.query = d.query ∧ c3row.chebi = m.chebi) ∧
    (∃ m2 ∈ c3model2, ∃ d2 ∈ c3data2,
      m2.kegg = d2.kegg_id ∧ c3row.metabolite = m2.metabolite ∧
      c3row.bigg = m2.bigg ∧ c3row.query = d2.query ∧ c3row.kegg = m2.kegg) :=
  (spec_c3_join_keys c3model2 c3data2).1 c3row (by decide)

/-- C6: every output row of constructFinalDataset consists of the
measurement columns of one input row unchanged together with the position
columns of a position row whose cleaned index equals the cleaned Compound
Method cell, the Compound Method cell itself being the only altered one
(bracket, quote and dot characters removed, stripped, lowercased); and a
measurement row matching no cleaned position index contributes no output
row. -/
theorem spec_c6_final_merge (pm : List PMRow) (rows : List MeasRow) :
    (∀ o ∈ constructFinalDataset pm rows,
      ∃ r ∈ rows, ∃ p ∈ pm,
        o.meas = r.meas ∧ o.compound = cleanName r.compound ∧
        o.posvals = p.posvals ∧ cleanName p.idx = cleanName r.compound) ∧
    (∀ r ∈ rows, (∀ p ∈ pm, cleanName p.idx ≠ cleanName r.compound) →
      ∀ o ∈ constructFinalDataset pm rows, o.compound ≠ cleanName r.compound) := by
  have hmain : ∀ o ∈ constructFinalDataset pm rows,
      ∃ r ∈ rows, ∃ p ∈ pm,
        o.meas = r.meas ∧ o.compound = cleanName r.compound ∧
        o.posvals = p.posvals ∧ cleanName p.idx = cleanName r.compound := by
    intro o ho
    simp only [constructFinalDataset] at ho
    rw [mem_listFlat] at ho
    obtain ⟨p2, hp2, hmapo⟩ := ho
    rw [List.mem_map] at hp2
    obtain ⟨p, hp, hpeq⟩ := hp2
    rw [List.mem_map] at hmapo
    obtain ⟨r2, hr2, hoeq⟩ := hmapo
    rw [List.mem_filter] at hr2
    obtain ⟨hr2mem, hcond⟩ := hr2
    rw [List.mem_map] at hr2mem
    obtain ⟨r, hr, hreq⟩ := hr2mem
    subst hoeq
    subst hpeq
    subst hreq
    rw [beq_iff_eq] at hcond
    exact ⟨r, hr, p, hp, rfl, rfl, rfl, hcond.symm⟩
  refine ⟨hmain, ?_⟩
  intro r hr hnomatch o ho hcontra
  obtain ⟨r3, hr3, p, hp, hmeas, hcomp, hpos, hkey⟩ := hmain o ho
  apply hnomatch p hp
  rw [hkey, ← hcomp, hcontra]

/-- C6 witness: the first part at a concrete position table and
measurement table whose keys match after cleaning. -/
theorem spec_c6_witness :
    ∃ r ∈ c6rows, ∃ p ∈ c6pm,
      c6out.meas = r.meas ∧ c6out.compound = cleanName r.compound ∧
      c6out.posvals = p.posvals ∧ cleanName p.idx = cleanName r.compound :=
  (spec_c6_final_merge c6pm c6rows).1 c6out (by decide)

/-- C2: in the table returned by mapMetabolitePositionsInModel, when the
pivot cell of a row key and a compartment aggregates exactly one model
list position (the metabolite occurs with that compartment suffix at a
single enumerate index i), the value stored in that compartment column of
the row is i. -/
theorem spec_c2_position (mets : List String) (merged : List MatchRow)
    (r : PosOutRow) (comp : String) (v : ℚ) (i : Nat)
    (hr : r ∈ mapMetabolitePositionsInModel mets merged)
    (hv : (comp, v) ∈ r.vals)
    (hpos : positionsFor mets (biggIdsOf merged) r.pivotKey comp = [i]) :
    v = (i : ℚ) := by
  simp only [mapMetabolitePositionsInModel] at hr
  rw [mem_listFlat] at hr
  obtain ⟨key, hkey, hmap⟩ := hr
  rw [List.mem_map] at hmap
  obtain ⟨row, hrow, heq⟩ := hmap
  subst heq
  rw [List.mem_map] at hv
  obtain ⟨c0, hc0, hpair⟩ := hv
  simp only [Prod.mk.injEq] at hpair
  obtain ⟨hc, hval⟩ := hpair
  subst hc
  subst hval
  exact pivotValue_singleton hpos

/-- C2 witness: the metabolite glc_c sits at enumerate index 1 of a
concrete model list and its compartment cell in the returned table holds
the value 1. -/
theorem spec_c2_witness :
    pivotValue c2mets c2bigg ("glc") ("c") = ((1 : Nat) : ℚ) := by
  have hlist : mapMetabolitePositionsInModel c2mets c2merged = [c2row] := rfl
  have hvals : c2row.vals = [(("c"), pivotValue c2mets c2bigg ("glc") ("c"))] := rfl
  exact spec_c2_position c2mets c2merged c2row ("c")
    (pivotValue c2mets c2bigg ("glc") ("c")) 1
    (by rw [hlist]; exact List.mem_cons_self c2row [])
    (by rw [hvals]; exact List.mem_cons_self _ [])
    (by decide)

/-- C10: a pivot cell aggregating no position is filled with 0
(fill_value=0), which is the same value a cell holds when its metabolite
truly sits at list index 0; and a cell aggregating several positions holds
their arithmetic mean (aggfunc='mean').  The last conjunct shows positions
1 and 2 yielding the value 3/2, which is neither of them. -/
theorem spec_c10_pivot (mets biggIds : List String) (key comp : String) :
    (positionsFor mets biggIds key comp = [] →
      pivotValue mets biggIds key comp = 0) ∧
    (positionsFor mets biggIds key comp ≠ [] →
      pivotValue mets biggIds key comp =
        ((positionsFor mets biggIds key comp).map (fun n => (n : ℚ))).sum /
          ((positionsFor mets biggIds key comp).length : ℚ)) ∧
    pivotValue [("glc_c")] [("M_glc_c")] ("glc") ("c") = 0 ∧
    pivotValue [("glc_m")] [("M_glc_m")] ("glc") ("c") = 0 ∧
    pivotValue [("h2o_c"), ("glc_x_c"), ("glc_y_c")]
      [("M_glc_x_c"), ("M_glc_y_c")] ("glc") ("c") = 3 / 2 := by
  refine ⟨?_, ?_, ?_, ?_, ?_⟩
  · intro h
    simp [pivotValue, h]
  · intro h
    cases hps : positionsFor mets biggIds key comp with
    | nil => exact absurd hps h
    | cons a t => simp [pivotValue, hps]
  · have h : positionsFor [("glc_c")] [("M_glc_c")] ("glc") ("c") = [0] := by decide
    rw [pivotValue_singleton h]
    norm_num
  · have h : positionsFor [("glc_m")] [("M_glc_m")] ("glc") ("c") = [] := by decide
    simp [pivotValue, h]
  · have h : positionsFor [("h2o_c"), ("glc_x_c"), ("glc_y_c")]
        [("M_glc_x_c"), ("M_glc_y_c")] ("glc") ("c") = [1, 2] := by decide
    simp [pivotValue, h]
    norm_num

/-- C10 witness: the fill and mean parts applied at concrete inputs: a
metabolite absent from compartment m gets 0, and a nonempty cell gets the
mean of its aggregated positions. -/
theorem spec_c10_witness :
    pivotValue [("glc_c")] [("M_glc_c")] ("glc") ("m") = 0 ∧
    pivotValue [("h2o_m"), ("glc_m")] [("M_glc_m")] ("glc") ("m") =
      ((positionsFor [("h2o_m"), ("glc_m")] [("M_glc_m")] ("glc") ("m")).map
          (fun n => (n : ℚ))).sum /
        ((positionsFor [("h2o_m"), ("glc_m")] [("M_glc_m")] ("glc") ("m")).length : ℚ) :=
  ⟨(spec_c10_pivot [("glc_c")] [("M_glc_c")] ("glc") ("m")).1 (by decide),
   (spec_c10_pivot [("h2o_m"), ("glc_m")] [("M_glc_m")] ("glc") ("m")).2.1 (by decide)⟩
